import Mathlib

/-!
Verification of the text-wrapping estimator, overlay composition, and clip
sequencing of `make_video.py`.

Modelling conventions:
* Python strings are modelled as `List Char`; `toL` converts a Lean string
  literal to that representation.
* Python floats are modelled by exact arithmetic.  Every width the source
  computes is an integer multiple of `font_size / 20` pixels (the multipliers
  are `1.1 = 22/20`, `0.65 = 13/20`, `0.35 = 7/20`), and the budget it is
  compared against is the integer `int(max_width_px * 0.85)`.  The model
  therefore measures all widths in exact twentieths of a pixel (`wordWidth20`,
  `spaceWidth20`, `lineWidth20` are twenty times the source's pixel values) and
  compares them against twenty times the budget; this rescaling turns every
  comparison of the source into an equivalent integer comparison.
  `int(x)` on a nonnegative value truncates, i.e. floors.
* `str.split()` (split on whitespace runs, dropping empty pieces) is modelled
  over the whitespace characters relevant to this program: the ASCII
  whitespace characters plus the ideographic space U+3000.
-/

/-- Whitespace recognised by the model of Python `str.split()` / `str.strip()`:
ASCII whitespace plus the ideographic space U+3000. -/
def isPySpace (c : Char) : Bool :=
  c = ' ' || c = '\t' || c = '\n' || c = '\r' || c = '\x0b' || c = '\x0c' || c = '　'

/-- Tail of the model of Python `str.split()`: `acc` holds the (reversed)
characters of the token currently being scanned. -/
def splitAux : List Char → List Char → List (List Char)
  | [], acc => if acc = [] then [] else [acc.reverse]
  | c :: cs, acc =>
    if isPySpace c then
      if acc = [] then splitAux cs [] else acc.reverse :: splitAux cs []
    else
      splitAux cs (c :: acc)

/-- Model of Python `text.split()` (line 87 of `make_video.py`): split on runs
of whitespace, dropping empty pieces. -/
def pySplit (s : List Char) : List (List Char) :=
  splitAux s []

/-- Model of Python `str.strip()`: drop leading and trailing whitespace. -/
def pyStrip (s : List Char) : List Char :=
  ((s.dropWhile isPySpace).reverse.dropWhile isPySpace).reverse

/-- Conversion from a Lean string literal to the `List Char` model. -/
def toL (s : String) : List Char :=
  s.data

/-- Character classification of `wrap_text_for_display` (lines 99-102):
wide-script iff the code point lies in the CJK Unified Ideographs, Hiragana,
or Katakana ranges. -/
def isWide (c : Char) : Bool :=
  (0x4e00 ≤ c.toNat && c.toNat ≤ 0x9fff) ||
  (0x3040 ≤ c.toNat && c.toNat ≤ 0x309f) ||
  (0x30a0 ≤ c.toNat && c.toNat ≤ 0x30ff)

/-- Estimated width of one token (lines 99-105), in twentieths of a pixel:
twenty times `cjk_count * font_size * 1.1 + other_count * font_size * 0.65`,
i.e. `cjk_count * 22 * font_size + other_count * 13 * font_size`. -/
def wordWidth20 (w : List Char) (font_size : ℕ) : ℕ :=
  w.countP isWide * (22 * font_size) + (w.length - w.countP isWide) * (13 * font_size)

/-- Estimated width of one inter-token space (line 106), in twentieths of a
pixel: twenty times `font_size * 0.35`, i.e. `7 * font_size`. -/
def spaceWidth20 (font_size : ℕ) : ℕ :=
  7 * font_size

/-- Estimated width of a whole line of tokens, in twentieths of a pixel: the
token widths plus one inter-token space before every token after the first.
This is exactly the value `current_pixel_estimate` tracks for the current
line, rescaled by twenty. -/
def lineWidth20 (line : List (List Char)) (font_size : ℕ) : ℕ :=
  (line.map (fun w => wordWidth20 w font_size)).sum +
    (line.length - 1) * spaceWidth20 font_size

/-- Safety-margined budget (line 85): `int(max_width_px * 0.85)`, with the
exact-arithmetic value `⌊max_width_px * 85 / 100⌋`. -/
def safeMaxWidth (max_width_px : ℕ) : ℕ :=
  max_width_px * 85 / 100

/-- The token loop of `wrap_text_for_display` (lines 91-118), with state
`(lines, current_line, current_pixel_estimate)`.  `safe20` is twenty times the
pixel budget `safe_max_width`; all widths are in twentieths of a pixel, so the
comparison `est + ww + sp ≤ safe20` is exactly the source's
`current_pixel_estimate + word_width_px + space_width_px <= safe_max_width`. -/
def wrapAux (font_size : ℕ) (safe20 : ℕ) :
    List (List Char) → List (List (List Char)) → List (List Char) → ℕ →
    List (List (List Char))
  | [], lines, cur, _ => if cur = [] then lines else lines ++ [cur]
  | w :: ws, lines, cur, est =>
    let ww := wordWidth20 w font_size
    let sp := if cur = [] then 0 else spaceWidth20 font_size
    if est + ww + sp ≤ safe20 then
      wrapAux font_size safe20 ws lines (cur ++ [w]) (est + ww + sp)
    else
      wrapAux font_size safe20 ws (if cur = [] then lines else lines ++ [cur]) [w] ww

/-- The list of lines (each a list of tokens) the wrapper produces for a token
sequence, starting from the empty state of lines 91-93. -/
def wrapLines (words : List (List Char)) (safe20 : ℕ) (font_size : ℕ) :
    List (List (List Char)) :=
  wrapAux font_size safe20 words [] [] 0

/-- Model of `" ".join(tokens)`. -/
def lineJoin : List (List Char) → List Char
  | [] => []
  | [w] => w
  | w :: w2 :: ws => w ++ ' ' :: lineJoin (w2 :: ws)

/-- Model of `"\n".join(lines)`. -/
def linesJoin : List (List Char) → List Char
  | [] => []
  | [l] => l
  | l :: l2 :: ls => l ++ '\n' :: linesJoin (l2 :: ls)

/-- Model of `wrap_text_for_display(text, max_width_px, font_size)`
(lines 76-124).  The trailing `encode('utf-8', errors='ignore')` round trip is
the identity on the valid Unicode strings `List Char` models, so it is not
represented. -/
def wrap_text_for_display (text : List Char) (max_width_px : ℕ) (font_size : ℕ) :
    List Char :=
  if text = [] then text
  else
    let words := pySplit text
    if words = [] then text
    else
      linesJoin ((wrapLines words (20 * safeMaxWidth max_width_px) font_size).map lineJoin)

/-! Configuration constants of `make_video.py` (lines 18-46). -/

/-- Seconds the word slide is shown (line 23). -/
def WORD_S : ℕ := 5

/-- Pause between word and info slides (line 24). -/
def PAUSE1_S : ℕ := 0

/-- Seconds the info slide is shown (line 25). -/
def INFO_S : ℕ := 10

/-- Pause after the info slide (line 26). -/
def PAUSE2_S : ℕ := 0

/-- Total clip duration (line 27). -/
def TOTAL_S : ℕ := WORD_S + PAUSE1_S + INFO_S + PAUSE2_S

/-- Font size of the word layer (line 30). -/
def WORD_SIZE : ℕ := 180

/-- Font size of the reading layer (line 31). -/
def READING_SIZE : ℕ := 92

/-- Font size of the Japanese example layer (line 32). -/
def JP_EX_SIZE : ℕ := 96

/-- Font size of the English example layer (line 33). -/
def EN_EX_SIZE : ℕ := 50

/-- Shared maximum text pixel width (line 37). -/
def TEXT_MAX_WIDTH : ℕ := 1200

/-- Start of the info window (line 144): `WORD_S + PAUSE1_S`. -/
def info_start : ℕ := WORD_S + PAUSE1_S

/-- End of the info window (line 145): `info_start + INFO_S`. -/
def info_end : ℕ := info_start + INFO_S

/-- The four text layers of one clip. -/
inductive Layer
  | word
  | reading
  | jp
  | en
deriving DecidableEq

/-- One drawtext operation of the filter graph built in `make_clip`
(lines 165-174): the text written to the per-card textfile, the font size and
the two arguments of its `enable=between(t,start,end)` clause. -/
structure DrawOp where
  layer : Layer
  textContent : List Char
  fontsize : ℕ
  enableStart : ℕ
  enableEnd : ℕ
deriving DecidableEq

/-- Visibility of a drawtext operation at time `t`, following the documented
semantics of the renderer's `between(t, min, max)`: it returns 1 exactly when
`min ≤ t` and `t ≤ max` (both bounds included). -/
def DrawOp.enabledAt (op : DrawOp) (t : ℚ) : Prop :=
  (op.enableStart : ℚ) ≤ t ∧ t ≤ (op.enableEnd : ℚ)

/-- Visibility window of the word layer: `enable=between(t,0,WORD_S)`
(line 167). -/
def wordEnabled (t : ℚ) : Prop :=
  (0 : ℚ) ≤ t ∧ t ≤ (WORD_S : ℚ)

/-- Visibility window shared by the three info layers:
`enable=between(t,info_start,info_end)` (lines 169-173). -/
def infoEnabled (t : ℚ) : Prop :=
  (info_start : ℚ) ≤ t ∧ t ≤ (info_end : ℚ)

/-- The text-preparation and overlay composition of `make_clip`
(lines 126-174): the four drawtext operations in filter-graph order, each with
the exact text content written to its textfile, its font size and its enable
window.  The word text is `word.strip()` (line 133); the other three are
wrapped through `wrap_text_for_display` with `TEXT_MAX_WIDTH` and the layer's
font size (lines 135-137). -/
def make_clip_ops (word reading example_jp example_en : List Char) : List DrawOp :=
  [ ⟨Layer.word, pyStrip word, WORD_SIZE, 0, WORD_S⟩,
    ⟨Layer.reading, wrap_text_for_display (pyStrip reading) TEXT_MAX_WIDTH READING_SIZE,
      READING_SIZE, info_start, info_end⟩,
    ⟨Layer.jp, wrap_text_for_display (pyStrip example_jp) TEXT_MAX_WIDTH JP_EX_SIZE,
      JP_EX_SIZE, info_start, info_end⟩,
    ⟨Layer.en, wrap_text_for_display (pyStrip example_en) TEXT_MAX_WIDTH EN_EX_SIZE,
      EN_EX_SIZE, info_start, info_end⟩ ]

/-- Clip identifiers listed in the concatenation manifest (line 190):
`range(1, num_clips + 1)`, i.e. `1, 2, ..., num_clips`; entry `i` of the
manifest is the line `file '%04d.mp4' % i`. -/
def concat_ids (num_clips : ℕ) : List ℕ :=
  List.range' 1 num_clips

/-- One data row of the input table, with missing optional fields already
defaulted to the empty string as in `row.get(key, "")` (lines 233-236). -/
structure Row where
  word : List Char
  reading : List Char
  example_jp : List Char
  example_en : List Char
deriving DecidableEq

/-- Fatal input errors of `main` (lines 218-227), each carrying the detail the
diagnostic prints; `Except.error` models the non-zero `sys.exit(1)`. -/
inductive RunError
  | badHeaders (found : List (List Char))
  | noRows
deriving DecidableEq

/-- The required header set of line 217. -/
def requiredHeaders : List (List Char) :=
  [toL ("word"), toL ("reading"), toL ("example_jp"), toL ("example_en")]

/-- Input validation of `main` (lines 215-227): reject when the header row is
absent or misses a required column (diagnostic carries the headers actually
found), then reject when there are no data rows. -/
def validate_input (fieldnames : List (List Char)) (rows : List Row) :
    Except RunError (List Row) :=
  if fieldnames.isEmpty || !(requiredHeaders.all fun r => fieldnames.contains r) then
    Except.error (RunError.badHeaders fieldnames)
  else if rows.isEmpty then
    Except.error RunError.noRows
  else
    Except.ok rows

/-- The pure skeleton of `main` (lines 215-240): validate the table, then build
one per-card render instruction per row, in row order.  An `Except.error`
result models a non-zero exit before any per-card rendering is attempted. -/
def run_pipeline (fieldnames : List (List Char)) (rows : List Row) :
    Except RunError (List (List DrawOp)) :=
  (validate_input fieldnames rows).map fun rs =>
    rs.map fun row => make_clip_ops row.word row.reading row.example_jp row.example_en

/-! Basic facts about the model of `str.split()`. -/

lemma splitAux_tokens (cs : List Char) :
    ∀ acc, (∀ c ∈ acc, isPySpace c = false) →
      ∀ t ∈ splitAux cs acc, t ≠ [] ∧ ∀ c ∈ t, isPySpace c = false := by
  induction cs with
  | nil =>
    intro acc hacc t ht
    by_cases h : acc = []
    · simp [splitAux, h] at ht
    · simp [splitAux, h] at ht
      subst ht
      refine ⟨by simpa using h, ?_⟩
      intro c hc
      exact hacc c (by simpa using hc)
  | cons c cs ih =>
    intro acc hacc t ht
    by_cases hsp : isPySpace c
    · by_cases h : acc = []
      · simp only [splitAux, hsp, if_true, h] at ht
        exact ih [] (by simp) t ht
      · simp only [splitAux, hsp, if_true, h, if_false] at ht
        rcases List.mem_cons.1 ht with ht | ht
        · subst ht
          refine ⟨by simpa using h, ?_⟩
          intro c hc
          exact hacc c (by simpa using hc)
        · exact ih [] (by simp) t ht
    · simp only [splitAux, hsp, Bool.false_eq_true, if_false] at ht
      refine ih (c :: acc) ?_ t ht
      intro d hd
      rcases List.mem_cons.1 hd with rfl | hd
      · simpa using hsp
      · exact hacc d hd

lemma pySplit_tokens (s : List Char) :
    ∀ t ∈ pySplit s, t ≠ [] ∧ ∀ c ∈ t, isPySpace c = false :=
  splitAux_tokens s [] (by simp)

lemma splitAux_skip (t : List Char) (h : ∀ c ∈ t, isPySpace c = false) :
    ∀ cs acc, splitAux (t ++ cs) acc = splitAux cs (t.reverse ++ acc) := by
  induction t with
  | nil => intro cs acc; simp
  | cons c t ih =>
    intro cs acc
    have hc : isPySpace c = false := h c (List.mem_cons_self c t)
    have ht : ∀ d ∈ t, isPySpace d = false := fun d hd => h d (List.mem_cons_of_mem c hd)
    show splitAux (c :: (t ++ cs)) acc = _
    simp only [splitAux, hc, Bool.false_eq_true, if_false]
    rw [ih ht cs (c :: acc)]
    simp

lemma splitAux_flush (c : Char) (hc : isPySpace c = true) (cs acc : List Char)
    (h : acc ≠ []) :
    splitAux (c :: cs) acc = acc.reverse :: splitAux cs [] := by
  simp [splitAux, hc, h]

lemma splitAux_all_space (cs : List Char) (h : ∀ c ∈ cs, isPySpace c = true) :
    splitAux cs [] = [] := by
  induction cs with
  | nil => simp [splitAux]
  | cons c cs ih =>
    have hc : isPySpace c = true := h c (List.mem_cons_self c cs)
    simp [splitAux, hc, ih fun d hd => h d (List.mem_cons_of_mem c hd)]

lemma pySplit_nil : pySplit ([] : List Char) = [] := rfl

/-- Splitting the space-join of a line of nonempty whitespace-free tokens
recovers the tokens. -/
lemma pySplit_lineJoin (l : List (List Char)) (hl : l ≠ [])
    (h : ∀ t ∈ l, t ≠ [] ∧ ∀ c ∈ t, isPySpace c = false) :
    splitAux (lineJoin l) [] = l := by
  induction l with
  | nil => exact absurd rfl hl
  | cons t ts ih =>
    have hts : ∀ u ∈ ts, u ≠ [] ∧ ∀ c ∈ u, isPySpace c = false :=
      fun u hu => h u (List.mem_cons_of_mem t hu)
    have htne : t ≠ [] := (h t (List.mem_cons_self t ts)).1
    have htf : ∀ c ∈ t, isPySpace c = false := (h t (List.mem_cons_self t ts)).2
    have hrev : t.reverse ≠ [] := by simpa using htne
    cases ts with
    | nil =>
      show splitAux (lineJoin [t]) [] = [t]
      have hskip := splitAux_skip t htf [] []
      simp only [List.append_nil] at hskip
      simp [lineJoin, hskip, splitAux, hrev]
    | cons t2 ts2 =>
      show splitAux (t ++ ' ' :: lineJoin (t2 :: ts2)) [] = t :: t2 :: ts2
      rw [splitAux_skip t htf, List.append_nil,
        splitAux_flush ' ' (by decide) (lineJoin (t2 :: ts2)) t.reverse hrev]
      rw [ih (List.cons_ne_nil t2 ts2) hts]
      simp

/-- Splitting the space-join of a line followed by a whitespace character and a
remainder yields the line's tokens followed by the split of the remainder. -/
lemma pySplit_lineJoin_append (l : List (List Char)) (hl : l ≠ [])
    (h : ∀ t ∈ l, t ≠ [] ∧ ∀ c ∈ t, isPySpace c = false)
    (c : Char) (hc : isPySpace c = true) (cs : List Char) :
    splitAux (lineJoin l ++ c :: cs) [] = l ++ splitAux cs [] := by
  induction l with
  | nil => exact absurd rfl hl
  | cons t ts ih =>
    have hts : ∀ u ∈ ts, u ≠ [] ∧ ∀ c ∈ u, isPySpace c = false :=
      fun u hu => h u (List.mem_cons_of_mem t hu)
    have htne : t ≠ [] := (h t (List.mem_cons_self t ts)).1
    have htf : ∀ d ∈ t, isPySpace d = false := (h t (List.mem_cons_self t ts)).2
    have hrev : t.reverse ≠ [] := by simpa using htne
    cases ts with
    | nil =>
      show splitAux (t ++ c :: cs) [] = [t] ++ splitAux cs []
      rw [splitAux_skip t htf, List.append_nil,
        splitAux_flush c hc cs t.reverse hrev]
      simp
    | cons t2 ts2 =>
      show splitAux ((t ++ ' ' :: lineJoin (t2 :: ts2)) ++ c :: cs) [] = _
      rw [List.append_assoc, List.cons_append]
      rw [splitAux_skip t htf, List.append_nil,
        splitAux_flush ' ' (by decide) (lineJoin (t2 :: ts2) ++ c :: cs) t.reverse hrev]
      rw [ih (List.cons_ne_nil t2 ts2) hts]
      simp

/-- Splitting the newline-join of space-joined lines of nonempty
whitespace-free tokens recovers the concatenation of the lines. -/
lemma pySplit_linesJoin (ls : List (List (List Char)))
    (hne : ∀ l ∈ ls, l ≠ [])
    (h : ∀ l ∈ ls, ∀ t ∈ l, t ≠ [] ∧ ∀ c ∈ t, isPySpace c = false) :
    splitAux (linesJoin (ls.map lineJoin)) [] = ls.flatten := by
  induction ls with
  | nil => simp [linesJoin, splitAux]
  | cons l ls2 ih =>
    have hl : l ≠ [] := hne l (List.mem_cons_self l ls2)
    have hlt : ∀ t ∈ l, t ≠ [] ∧ ∀ c ∈ t, isPySpace c = false :=
      h l (List.mem_cons_self l ls2)
    cases ls2 with
    | nil =>
      show splitAux (linesJoin [lineJoin l]) [] = l ++ [].flatten
      have hx : linesJoin [lineJoin l] = lineJoin l := rfl
      rw [hx, pySplit_lineJoin l hl hlt]
      simp
    | cons l2 ls3 =>
      have hx : linesJoin ((l :: l2 :: ls3).map lineJoin) =
          lineJoin l ++ '\n' :: linesJoin ((l2 :: ls3).map lineJoin) := rfl
      rw [hx, pySplit_lineJoin_append l hl hlt '\n' (by decide)]
      rw [ih (fun u hu => hne u (List.mem_cons_of_mem l hu))
        (fun u hu => h u (List.mem_cons_of_mem l hu))]
      simp

/-! Structural facts about the wrapper loop. -/

/-- Unfolding of one loop iteration when the current line is empty: the space
width is zero, and both branches start the line `[w]` with estimate the width
of `w` (in the fitting branch because `est` is then `0` in every reachable
state; the equation below keeps `est` general in the fitting branch). -/
lemma wrapAux_cons_nil (font_size safe20 : ℕ) (w : List Char)
    (ws : List (List Char)) (lines : List (List (List Char))) (est : ℕ) :
    wrapAux font_size safe20 (w :: ws) lines [] est =
      if est + wordWidth20 w font_size ≤ safe20 then
        wrapAux font_size safe20 ws lines [w] (est + wordWidth20 w font_size)
      else
        wrapAux font_size safe20 ws lines [w] (wordWidth20 w font_size) := by
  simp [wrapAux]

/-- Unfolding of one loop iteration when the current line is nonempty. -/
lemma wrapAux_cons_ne (font_size safe20 : ℕ) (w : List Char)
    (ws : List (List Char)) (lines : List (List (List Char)))
    (cur : List (List Char)) (est : ℕ) (h : cur ≠ []) :
    wrapAux font_size safe20 (w :: ws) lines cur est =
      if est + wordWidth20 w font_size + spaceWidth20 font_size ≤ safe20 then
        wrapAux font_size safe20 ws lines (cur ++ [w])
          (est + wordWidth20 w font_size + spaceWidth20 font_size)
      else
        wrapAux font_size safe20 ws (lines ++ [cur]) [w] (wordWidth20 w font_size) := by
  simp [wrapAux, h]

/-- The wrapper loop never drops, alters or reorders tokens: the concatenation
of the lines it produces is the pending lines, then the current line, then the
unprocessed tokens. -/
lemma wrapAux_flatten (font_size safe20 : ℕ) :
    ∀ (ws : List (List Char)) (lines : List (List (List Char)))
      (cur : List (List Char)) (est : ℕ),
      (wrapAux font_size safe20 ws lines cur est).flatten =
        lines.flatten ++ cur ++ ws := by
  intro ws
  induction ws with
  | nil =>
    intro lines cur est
    by_cases h : cur = [] <;> simp [wrapAux, h]
  | cons w ws ih =>
    intro lines cur est
    by_cases h : cur = []
    · subst h
      rw [wrapAux_cons_nil]
      by_cases hc : est + wordWidth20 w font_size ≤ safe20
      · rw [if_pos hc, ih]; simp
      · rw [if_neg hc, ih]; simp
    · rw [wrapAux_cons_ne font_size safe20 w ws lines cur est h]
      by_cases hc : est + wordWidth20 w font_size + spaceWidth20 font_size ≤ safe20
      · rw [if_pos hc, ih]; simp
      · rw [if_neg hc, ih]; simp

lemma wrapLines_flatten (words : List (List Char)) (safe20 font_size : ℕ) :
    (wrapLines words safe20 font_size).flatten = words := by
  simpa using wrapAux_flatten font_size safe20 words [] [] 0

/-- The wrapper loop only ever emits nonempty lines. -/
lemma wrapAux_lines_ne_nil (font_size safe20 : ℕ) :
    ∀ (ws : List (List Char)) (lines : List (List (List Char)))
      (cur : List (List Char)) (est : ℕ),
      (∀ l ∈ lines, l ≠ []) →
      ∀ l ∈ wrapAux font_size safe20 ws lines cur est, l ≠ [] := by
  intro ws
  induction ws with
  | nil =>
    intro lines cur est hlines l hl
    by_cases h : cur = []
    · simp only [wrapAux, h, if_true] at hl
      exact hlines l hl
    · simp only [wrapAux, h, if_false] at hl
      rcases List.mem_append.1 hl with hl | hl
      · exact hlines l hl
      · simp only [List.mem_singleton] at hl
        subst hl; exact h
  | cons w ws ih =>
    intro lines cur est hlines l hl
    by_cases h : cur = []
    · subst h
      rw [wrapAux_cons_nil] at hl
      by_cases hc : est + wordWidth20 w font_size ≤ safe20
      · rw [if_pos hc] at hl
        exact ih lines [w] _ hlines l hl
      · rw [if_neg hc] at hl
        exact ih lines [w] _ hlines l hl
    · rw [wrapAux_cons_ne font_size safe20 w ws lines cur est h] at hl
      by_cases hc : est + wordWidth20 w font_size + spaceWidth20 font_size ≤ safe20
      · rw [if_pos hc] at hl
        exact ih lines (cur ++ [w]) _ hlines l hl
      · rw [if_neg hc] at hl
        refine ih (lines ++ [cur]) [w] _ ?_ l hl
        intro u hu
        rcases List.mem_append.1 hu with hu | hu
        · exact hlines u hu
        · simp only [List.mem_singleton] at hu
          subst hu; exact h

/-- Claim C2: wrapping never drops, alters or reorders tokens — splitting the
wrapper's output on whitespace (the inserted line breaks are whitespace)
yields exactly the whitespace-split token sequence of the input. -/
theorem wrap_preserves_token_sequence (text : List Char) (W F : ℕ) :
    pySplit (wrap_text_for_display text W F) = pySplit text := by
  by_cases h0 : text = []
  · subst h0; rfl
  · by_cases h1 : pySplit text = []
    · simp [wrap_text_for_display, h0, h1]
    · simp only [wrap_text_for_display, h0, if_false, h1]
      set ls := wrapLines (pySplit text) (20 * safeMaxWidth W) F with hls
      have hne : ∀ l ∈ ls, l ≠ [] :=
        wrapAux_lines_ne_nil F (20 * safeMaxWidth W) (pySplit text) [] [] 0 (by simp)
      have htok : ∀ l ∈ ls, ∀ t ∈ l, t ≠ [] ∧ ∀ c ∈ t, isPySpace c = false := by
        intro l hl t ht
        have hmem : t ∈ ls.flatten := List.mem_flatten.2 ⟨l, hl, ht⟩
        rw [hls, wrapLines_flatten] at hmem
        exact pySplit_tokens text t hmem
      show splitAux (linesJoin (ls.map lineJoin)) [] = pySplit text
      rw [pySplit_linesJoin ls hne htok, hls, wrapLines_flatten]

/-! Facts about the line-width estimate. -/

lemma lineWidth20_nil (F : ℕ) : lineWidth20 [] F = 0 := by
  simp [lineWidth20]

lemma lineWidth20_single (w : List Char) (F : ℕ) :
    lineWidth20 [w] F = wordWidth20 w F := by
  simp [lineWidth20]

/-- Appending one token to a line adds the token's width plus one inter-token
space when the line was nonempty — exactly the update of
`current_pixel_estimate` in the fitting branch of the loop. -/
lemma lineWidth20_append_single (l : List (List Char)) (w : List Char) (F : ℕ) :
    lineWidth20 (l ++ [w]) F =
      lineWidth20 l F + wordWidth20 w F + (if l = [] then 0 else spaceWidth20 F) := by
  cases l with
  | nil => simp [lineWidth20]
  | cons a t =>
    simp only [lineWidth20, List.map_append, List.sum_append, List.map_cons,
      List.sum_cons, List.length_append, List.length_cons, List.map_nil,
      List.sum_nil, List.length_nil, List.cons_ne_nil, if_false,
      List.cons_append]
    have h1 : t.length + 1 + 1 - 1 = t.length + 1 := by omega
    have h2 : t.length + 1 - 1 = t.length := by omega
    rw [h1, h2]
    ring

/-- A line is never wider than any of its extensions. -/
lemma lineWidth20_le_append (l r : List (List Char)) (F : ℕ) :
    lineWidth20 l F ≤ lineWidth20 (l ++ r) F := by
  simp only [lineWidth20, List.map_append, List.sum_append, List.length_append]
  have h1 : (l.map (fun w => wordWidth20 w F)).sum ≤
      (l.map (fun w => wordWidth20 w F)).sum + (r.map (fun w => wordWidth20 w F)).sum :=
    Nat.le_add_right _ _
  have h2 : (l.length - 1) * spaceWidth20 F ≤
      (l.length + r.length - 1) * spaceWidth20 F :=
    Nat.mul_le_mul_right _ (by omega)
  omega

/-! The budget invariant of the wrapper loop (claim C1). -/

/-- Invariant: provided the running estimate matches the current line's width,
the current line fits the budget or is a single token, and every pending line
fits or is a single over-long token, every line the loop finally produces fits
or is a single over-long token. -/
lemma wrapAux_budget (F safe : ℕ) :
    ∀ (ws : List (List Char)) (lines : List (List (List Char)))
      (cur : List (List Char)) (est : ℕ),
      est = lineWidth20 cur F →
      (lineWidth20 cur F ≤ safe ∨ ∃ w, cur = [w]) →
      (∀ l ∈ lines, lineWidth20 l F ≤ safe ∨ ∃ w, l = [w] ∧ safe < wordWidth20 w F) →
      ∀ l ∈ wrapAux F safe ws lines cur est,
        lineWidth20 l F ≤ safe ∨ ∃ w, l = [w] ∧ safe < wordWidth20 w F := by
  intro ws
  induction ws with
  | nil =>
    intro lines cur est hest hcur hlines l hl
    by_cases h : cur = []
    · simp only [wrapAux, h, if_true] at hl
      exact hlines l hl
    · simp only [wrapAux, h, if_false] at hl
      rcases List.mem_append.1 hl with hl | hl
      · exact hlines l hl
      · simp only [List.mem_singleton] at hl
        subst hl
        rcases hcur with hcur | ⟨w, rfl⟩
        · exact Or.inl hcur
        · by_cases hw : wordWidth20 w F ≤ safe
          · exact Or.inl (by simpa [lineWidth20_single] using hw)
          · exact Or.inr ⟨w, rfl, by omega⟩
  | cons w ws ih =>
    intro lines cur est hest hcur hlines l hl
    by_cases h : cur = []
    · subst h
      rw [wrapAux_cons_nil] at hl
      rw [lineWidth20_nil] at hest
      subst hest
      by_cases hc : 0 + wordWidth20 w F ≤ safe
      · rw [if_pos hc] at hl
        refine ih lines [w] _ (by simp [lineWidth20_single]) ?_ hlines l hl
        exact Or.inl (by simp [lineWidth20_single]; omega)
      · rw [if_neg hc] at hl
        exact ih lines [w] _ (lineWidth20_single w F).symm (Or.inr ⟨w, rfl⟩) hlines l hl
    · rw [wrapAux_cons_ne F safe w ws lines cur est h] at hl
      by_cases hc : est + wordWidth20 w F + spaceWidth20 F ≤ safe
      · rw [if_pos hc] at hl
        refine ih lines (cur ++ [w]) _ ?_ ?_ hlines l hl
        · rw [lineWidth20_append_single, if_neg h, hest]
        · exact Or.inl (by rw [lineWidth20_append_single, if_neg h, ← hest]; omega)
      · rw [if_neg hc] at hl
        refine ih (lines ++ [cur]) [w] _ (lineWidth20_single w F).symm
          (Or.inr ⟨w, rfl⟩) ?_ l hl
        intro u hu
        rcases List.mem_append.1 hu with hu | hu
        · exact hlines u hu
        · simp only [List.mem_singleton] at hu
          subst hu
          rcases hcur with hcur | ⟨v, rfl⟩
          · exact Or.inl hcur
          · by_cases hv : wordWidth20 v F ≤ safe
            · exact Or.inl (by simpa [lineWidth20_single] using hv)
            · exact Or.inr ⟨v, rfl, by omega⟩

/-- Claim C1: every line the wrapper produces for a text either has estimated
width (in twentieths of a pixel) at most twenty times the safety-margined
budget `int(W * 0.85)`, or consists of exactly one token whose own estimated
width exceeds that budget. -/
theorem wrap_lines_respect_budget (text : List Char) (W F : ℕ)
    (line : List (List Char))
    (hmem : line ∈ wrapLines (pySplit text) (20 * safeMaxWidth W) F) :
    lineWidth20 line F ≤ 20 * safeMaxWidth W ∨
      ∃ w, line = [w] ∧ 20 * safeMaxWidth W < wordWidth20 w F := by
  refine wrapAux_budget F (20 * safeMaxWidth W) (pySplit text) [] [] 0 ?_ ?_ ?_ line hmem
  · simp [lineWidth20_nil]
  · exact Or.inl (by simp [lineWidth20_nil])
  · simp

theorem wrap_lines_respect_budget_witness :
    [toL ("ねこ")] ∈ wrapLines (pySplit (toL ("ねこ"))) (20 * safeMaxWidth 1200) 92 ∧
      (lineWidth20 [toL ("ねこ")] 92 ≤ 20 * safeMaxWidth 1200 ∨
        ∃ w, [toL ("ねこ")] = [w] ∧ 20 * safeMaxWidth 1200 < wordWidth20 w 92) :=
  ⟨by decide, wrap_lines_respect_budget (toL ("ねこ")) 1200 92 [toL ("ねこ")] (by decide)⟩

/-! Claim C6: already-fitting text stays on one line. -/

/-- If the whole remaining token sequence fits on the current nonempty line,
the loop just appends every token to it and closes it as the only new line. -/
lemma wrapAux_all_fits (F safe : ℕ) :
    ∀ (ws : List (List Char)) (cur : List (List Char)) (est : ℕ)
      (lines : List (List (List Char))),
      cur ≠ [] → est = lineWidth20 cur F →
      lineWidth20 (cur ++ ws) F ≤ safe →
      wrapAux F safe ws lines cur est = lines ++ [cur ++ ws] := by
  intro ws
  induction ws with
  | nil =>
    intro cur est lines hcur hest hfit
    simp [wrapAux, hcur]
  | cons w ws ih =>
    intro cur est lines hcur hest hfit
    rw [wrapAux_cons_ne F safe w ws lines cur est hcur]
    have hstep : est + wordWidth20 w F + spaceWidth20 F = lineWidth20 (cur ++ [w]) F := by
      rw [lineWidth20_append_single, if_neg hcur, hest]
    have hmono : lineWidth20 (cur ++ [w]) F ≤ lineWidth20 ((cur ++ [w]) ++ ws) F :=
      lineWidth20_le_append (cur ++ [w]) ws F
    have hassoc : (cur ++ [w]) ++ ws = cur ++ w :: ws := by simp
    have hc : est + wordWidth20 w F + spaceWidth20 F ≤ safe := by
      rw [hstep]
      calc lineWidth20 (cur ++ [w]) F ≤ lineWidth20 ((cur ++ [w]) ++ ws) F := hmono
        _ = lineWidth20 (cur ++ w :: ws) F := by rw [hassoc]
        _ ≤ safe := hfit
    rw [if_pos hc]
    rw [ih (cur ++ [w]) _ lines (by simp) hstep (by rw [hassoc]; exact hfit)]
    rw [hassoc]

/-- Claim C6 (amended with at least one token present): when the estimated
width of the full token sequence fits the safety-margined budget, the wrapper
returns the single line of all tokens joined by single spaces — the
whitespace-normalized input. -/
theorem wrap_short_text_single_line (text : List Char) (W F : ℕ)
    (h1 : pySplit text ≠ [])
    (h2 : lineWidth20 (pySplit text) F ≤ 20 * safeMaxWidth W) :
    wrap_text_for_display text W F = lineJoin (pySplit text) := by
  have h0 : text ≠ [] := by
    intro h
    exact h1 (by rw [h, pySplit_nil])
  simp only [wrap_text_for_display, h0, if_false, h1]
  cases hsplit : pySplit text with
  | nil => exact absurd hsplit h1
  | cons t rest =>
    rw [hsplit] at h2
    have hlines : wrapLines (t :: rest) (20 * safeMaxWidth W) F = [t :: rest] := by
      show wrapAux F (20 * safeMaxWidth W) (t :: rest) [] [] 0 = [t :: rest]
      rw [wrapAux_cons_nil]
      have hfit0 : 0 + wordWidth20 t F ≤ 20 * safeMaxWidth W := by
        have := lineWidth20_le_append [t] rest F
        rw [lineWidth20_single] at this
        simp only [List.cons_append, List.nil_append] at this
        omega
      rw [if_pos hfit0]
      rw [wrapAux_all_fits F (20 * safeMaxWidth W) rest [t] _ [] (by simp)
        (by rw [lineWidth20_single]; omega) (by simpa using h2)]
      simp
    rw [hlines]
    rfl

theorem wrap_short_text_single_line_witness :
    pySplit (toL ("猫 cat")) ≠ [] ∧
      lineWidth20 (pySplit (toL ("猫 cat"))) 92 ≤ 20 * safeMaxWidth 1200 ∧
      wrap_text_for_display (toL ("猫 cat")) 1200 92 = lineJoin (pySplit (toL ("猫 cat"))) :=
  ⟨by decide, by decide,
    wrap_short_text_single_line (toL ("猫 cat")) 1200 92 (by decide) (by decide)⟩

/-- Claim C6 counterexample: a whitespace-only text has token-sequence
estimated width `0`, well within the budget, yet the wrapper returns it
unchanged rather than returning the whitespace-normalized input (which is
empty), so the claim's unrestricted form fails on whitespace-only input. -/
theorem wrap_short_text_whitespace_cex :
    lineWidth20 (pySplit (toL (" "))) 92 ≤ 20 * safeMaxWidth 1200 ∧
      wrap_text_for_display (toL (" ")) 1200 92 ≠ lineJoin (pySplit (toL (" "))) := by
  decide

/-! Claim C4: empty and whitespace-only input. -/

/-- Claim C4 (amended): on input consisting only of whitespace characters —
including the empty string — the wrapper returns its input unchanged (the
split produces no tokens, so the function returns early). -/
theorem wrap_blank_input_unchanged (text : List Char) (W F : ℕ)
    (h : text.all isPySpace = true) :
    wrap_text_for_display text W F = text := by
  by_cases h0 : text = []
  · simp [wrap_text_for_display, h0]
  · have hsplit : pySplit text = [] :=
      splitAux_all_space text (by simpa [List.all_eq_true] using h)
    simp [wrap_text_for_display, h0, hsplit]

theorem wrap_blank_input_unchanged_witness :
    (toL ("  ")).all isPySpace = true ∧
      wrap_text_for_display (toL ("  ")) 1200 92 = toL ("  ") :=
  ⟨by decide, wrap_blank_input_unchanged (toL ("  ")) 1200 92 (by decide)⟩

/-- Claim C4 counterexample: on the one-space string the wrapper returns the
one-space string itself, not the empty string the claim demands. -/
theorem wrap_whitespace_not_empty_cex :
    wrap_text_for_display (toL (" ")) 1200 92 = toL (" ") ∧
      toL (" ") ≠ ([] : List Char) := by
  decide

/-! Claim C7: pointwise wider tokens never need fewer lines. -/

/-- Two runs of the wrapper loop over token sequences of equal length whose
widths compare pointwise (`us` at most `vs`): if the `us` run has emitted
fewer lines, or the same number with an estimate at most that of the `vs` run,
then it finishes with at most as many lines.  Both current lines are nonempty,
which is every reachable state after the first token. -/
lemma wrapAux_mono_length (F safe : ℕ) {us vs : List (List Char)}
    (hf : List.Forall₂ (fun u v => wordWidth20 u F ≤ wordWidth20 v F) us vs) :
    ∀ (lu lv : List (List (List Char))) (cu cv : List (List Char)) (eu ev : ℕ),
      cu ≠ [] → cv ≠ [] →
      (lu.length < lv.length ∨ (lu.length = lv.length ∧ eu ≤ ev)) →
      (wrapAux F safe us lu cu eu).length ≤ (wrapAux F safe vs lv cv ev).length := by
  induction hf with
  | nil =>
    intro lu lv cu cv eu ev hcu hcv hinv
    simp only [wrapAux, hcu, hcv, if_false]
    simp only [List.length_append, List.length_singleton]
    omega
  | @cons u v us vs huv htail ih =>
    intro lu lv cu cv eu ev hcu hcv hinv
    rw [wrapAux_cons_ne F safe u us lu cu eu hcu,
      wrapAux_cons_ne F safe v vs lv cv ev hcv]
    by_cases hv : ev + wordWidth20 v F + spaceWidth20 F ≤ safe
    · rw [if_pos hv]
      by_cases hu : eu + wordWidth20 u F + spaceWidth20 F ≤ safe
      · rw [if_pos hu]
        refine ih lu lv (cu ++ [u]) (cv ++ [v]) _ _ (by simp) (by simp) ?_
        rcases hinv with h | ⟨h1, h2⟩
        · exact Or.inl h
        · exact Or.inr ⟨h1, by omega⟩
      · rw [if_neg hu]
        have hlt : lu.length < lv.length := by
          rcases hinv with h | ⟨h1, h2⟩
          · exact h
          · exact absurd (by omega : eu + wordWidth20 u F + spaceWidth20 F ≤ safe) hu
        refine ih (lu ++ [cu]) lv [u] (cv ++ [v]) _ _ (by simp) (by simp) ?_
        simp only [List.length_append, List.length_singleton]
        omega
    · rw [if_neg hv]
      by_cases hu : eu + wordWidth20 u F + spaceWidth20 F ≤ safe
      · rw [if_pos hu]
        refine ih lu (lv ++ [cv]) (cu ++ [u]) [v] _ _ (by simp) (by simp) ?_
        simp only [List.length_append, List.length_singleton]
        omega
      · rw [if_neg hu]
        refine ih (lu ++ [cu]) (lv ++ [cv]) [u] [v] _ _ (by simp) (by simp) ?_
        simp only [List.length_append, List.length_singleton]
        omega

/-- All-wide tokens weigh `22 * F` per character. -/
lemma wordWidth20_all_wide (t : List Char) (F : ℕ)
    (h : ∀ c ∈ t, isWide c = true) :
    wordWidth20 t F = t.length * (22 * F) := by
  have hcount : t.countP isWide = t.length := by
    rw [List.countP_eq_length]
    exact h
  simp [wordWidth20, hcount]

/-- All-narrow tokens weigh `13 * F` per character. -/
lemma wordWidth20_all_narrow (t : List Char) (F : ℕ)
    (h : ∀ c ∈ t, isWide c = false) :
    wordWidth20 t F = t.length * (13 * F) := by
  have hcount : t.countP isWide = 0 := by
    rw [List.countP_eq_zero]
    intro c hc
    simp [h c hc]
  simp [wordWidth20, hcount]

/-- Equal-shaped all-narrow and all-wide token sequences compare pointwise in
estimated width. -/
lemma forall₂_narrow_le_wide (F : ℕ) :
    ∀ (wsN wsW : List (List Char)),
      wsN.map List.length = wsW.map List.length →
      (∀ t ∈ wsN, ∀ c ∈ t, isWide c = false) →
      (∀ t ∈ wsW, ∀ c ∈ t, isWide c = true) →
      List.Forall₂ (fun u v => wordWidth20 u F ≤ wordWidth20 v F) wsN wsW := by
  intro wsN
  induction wsN with
  | nil =>
    intro wsW hshape _ _
    cases wsW with
    | nil => exact List.Forall₂.nil
    | cons t ts => simp at hshape
  | cons t ts ih =>
    intro wsW hshape hN hW
    cases wsW with
    | nil => simp at hshape
    | cons u us =>
      simp only [List.map_cons, List.cons.injEq] at hshape
      refine List.Forall₂.cons ?_ (ih us hshape.2
        (fun x hx => hN x (List.mem_cons_of_mem t hx))
        (fun x hx => hW x (List.mem_cons_of_mem u hx)))
      rw [wordWidth20_all_narrow t F (hN t (List.mem_cons_self t ts)),
        wordWidth20_all_wide u F (hW u (List.mem_cons_self u us)), hshape.1]
      exact Nat.mul_le_mul_left _ (by omega)

/-- Claim C7: at the same font size and pixel budget, an all-wide-script token
sequence wraps into at least as many lines as an equal-shaped all-narrow-script
token sequence, because each wide character is estimated at `1.1 * font_size`
and each narrow character at `0.65 * font_size`. -/
theorem wide_text_wraps_at_least_narrow (wsWide wsNarrow : List (List Char))
    (W F : ℕ)
    (hshape : wsWide.map List.length = wsNarrow.map List.length)
    (hwide : wsWide.all (fun t => t.all isWide) = true)
    (hnarrow : wsNarrow.all (fun t => t.all (fun c => !(isWide c))) = true) :
    (wrapLines wsNarrow (20 * safeMaxWidth W) F).length ≤
      (wrapLines wsWide (20 * safeMaxWidth W) F).length := by
  have hwide' : ∀ t ∈ wsWide, ∀ c ∈ t, isWide c = true := by
    intro t ht c hc
    have := (List.all_eq_true.1 hwide) t ht
    exact (List.all_eq_true.1 this) c hc
  have hnarrow' : ∀ t ∈ wsNarrow, ∀ c ∈ t, isWide c = false := by
    intro t ht c hc
    have := (List.all_eq_true.1 hnarrow) t ht
    simpa using (List.all_eq_true.1 this) c hc
  have hf := forall₂_narrow_le_wide F wsNarrow wsWide hshape.symm hnarrow' hwide'
  cases hf with
  | nil => simp
  | @cons u v us vs huv htail =>
    show (wrapAux F (20 * safeMaxWidth W) (u :: us) [] [] 0).length ≤
      (wrapAux F (20 * safeMaxWidth W) (v :: vs) [] [] 0).length
    rw [wrapAux_cons_nil, wrapAux_cons_nil]
    have hredu : (if 0 + wordWidth20 u F ≤ 20 * safeMaxWidth W then
        wrapAux F (20 * safeMaxWidth W) us [] [u] (0 + wordWidth20 u F)
      else wrapAux F (20 * safeMaxWidth W) us [] [u] (wordWidth20 u F)) =
        wrapAux F (20 * safeMaxWidth W) us [] [u] (wordWidth20 u F) := by
      by_cases hc : 0 + wordWidth20 u F ≤ 20 * safeMaxWidth W
      · rw [if_pos hc, Nat.zero_add]
      · rw [if_neg hc]
    have hredv : (if 0 + wordWidth20 v F ≤ 20 * safeMaxWidth W then
        wrapAux F (20 * safeMaxWidth W) vs [] [v] (0 + wordWidth20 v F)
      else wrapAux F (20 * safeMaxWidth W) vs [] [v] (wordWidth20 v F)) =
        wrapAux F (20 * safeMaxWidth W) vs [] [v] (wordWidth20 v F) := by
      by_cases hc : 0 + wordWidth20 v F ≤ 20 * safeMaxWidth W
      · rw [if_pos hc, Nat.zero_add]
      · rw [if_neg hc]
    rw [hredu, hredv]
    exact wrapAux_mono_length F (20 * safeMaxWidth W) htail [] [] [u] [v] _ _
      (by simp) (by simp) (Or.inr ⟨rfl, huv⟩)

theorem wide_text_wraps_at_least_narrow_witness :
    ([toL ("ねこねこ"), toL ("ねこ")]).map List.length =
        ([toL ("abcd"), toL ("ef")]).map List.length ∧
      ([toL ("ねこねこ"), toL ("ねこ")]).all (fun t => t.all isWide) = true ∧
      ([toL ("abcd"), toL ("ef")]).all (fun t => t.all (fun c => !(isWide c))) = true ∧
      (wrapLines [toL ("abcd"), toL ("ef")] (20 * safeMaxWidth 1200) 92).length ≤
        (wrapLines [toL ("ねこねこ"), toL ("ねこ")] (20 * safeMaxWidth 1200) 92).length :=
  ⟨by decide, by decide, by decide,
    wide_text_wraps_at_least_narrow [toL ("ねこねこ"), toL ("ねこ")]
      [toL ("abcd"), toL ("ef")] 1200 92 (by decide) (by decide) (by decide)⟩

/-! Claim C3: which fields the overlay composer wraps. -/

/-- Claim C3 (amended): the composer wraps the reading, source-example and
target-example fields through the wrapper with the layer's configured font
size and the shared `TEXT_MAX_WIDTH`, but the word field is only stripped and
attached unwrapped. -/
theorem composer_wraps_info_fields_only (w r j e : List Char) :
    (make_clip_ops w r j e).map (fun op => op.textContent) =
      [pyStrip w,
        wrap_text_for_display (pyStrip r) TEXT_MAX_WIDTH READING_SIZE,
        wrap_text_for_display (pyStrip j) TEXT_MAX_WIDTH JP_EX_SIZE,
        wrap_text_for_display (pyStrip e) TEXT_MAX_WIDTH EN_EX_SIZE] ∧
      (make_clip_ops w r j e).map (fun op => op.fontsize) =
        [WORD_SIZE, READING_SIZE, JP_EX_SIZE, EN_EX_SIZE] :=
  ⟨rfl, rfl⟩

/-- Claim C3 counterexample: for a twelve-token word field the composer
attaches the stripped input itself, which differs from what the wrapper would
produce at the word layer's font size — so the word field is not wrapped. -/
theorem word_layer_not_wrapped_cex :
    ((make_clip_ops (toL ("a a a a a a a a a a a a")) ([] : List Char)
          ([] : List Char) ([] : List Char)).map (fun op => op.textContent)).head? =
        some (toL ("a a a a a a a a a a a a")) ∧
      wrap_text_for_display (toL ("a a a a a a a a a a a a")) TEXT_MAX_WIDTH WORD_SIZE ≠
        toL ("a a a a a a a a a a a a") := by
  decide

/-! Claim C5: visibility windows of the two slide states. -/

/-- Claim C5 (amended): with the default zero pauses the two `between` windows
are the closed intervals `[0, WORD_S]` and `[WORD_S, WORD_S + INFO_S]`; their
union is exactly `[0, TOTAL_S]` (the whole card duration, no gap) and they
overlap in exactly the single instant `t = WORD_S`. -/
theorem word_info_windows_closed_cover :
    ∀ t : ℚ, ((wordEnabled t ∨ infoEnabled t) ↔ ((0 : ℚ) ≤ t ∧ t ≤ (TOTAL_S : ℚ))) ∧
      ((wordEnabled t ∧ infoEnabled t) ↔ t = (WORD_S : ℚ)) := by
  intro t
  have hws : ((WORD_S : ℕ) : ℚ) = 5 := by norm_num [WORD_S]
  have his : ((info_start : ℕ) : ℚ) = 5 := by norm_num [info_start, WORD_S, PAUSE1_S]
  have hie : ((info_end : ℕ) : ℚ) = 15 := by
    norm_num [info_end, info_start, WORD_S, PAUSE1_S, INFO_S]
  have hts : ((TOTAL_S : ℕ) : ℚ) = 15 := by
    norm_num [TOTAL_S, WORD_S, PAUSE1_S, INFO_S, PAUSE2_S]
  simp only [wordEnabled, infoEnabled, hws, his, hie, hts]
  refine ⟨⟨?_, ?_⟩, ⟨?_, ?_⟩⟩
  · rintro (⟨h1, h2⟩ | ⟨h1, h2⟩) <;> exact ⟨by linarith, by linarith⟩
  · rintro ⟨h1, h2⟩
    by_cases h : t ≤ 5
    · exact Or.inl ⟨h1, h⟩
    · exact Or.inr ⟨by linarith, h2⟩
  · rintro ⟨⟨h1, h2⟩, h3, h4⟩
    linarith
  · rintro rfl
    refine ⟨⟨by norm_num, by norm_num⟩, by norm_num, by norm_num⟩

/-- Claim C5 counterexample: at `t = WORD_S` both the word window and the info
window are enabled (`between` includes both endpoints), so the word layer's
window is not the half-open `[0, WORD_S)` and the two windows are not
disjoint. -/
theorem word_info_windows_overlap_cex :
    wordEnabled (WORD_S : ℚ) ∧ infoEnabled (WORD_S : ℚ) ∧
      ¬((WORD_S : ℚ) < (WORD_S : ℚ)) := by
  refine ⟨?_, ?_, lt_irrefl _⟩ <;>
    norm_num [wordEnabled, infoEnabled, WORD_S, info_start, info_end, PAUSE1_S, INFO_S]

/-! Claim C8: the concatenation manifest. -/

lemma chain_lt_range (n : ℕ) : ∀ s, List.Chain' (· < ·) (List.range' s n) := by
  induction n with
  | zero => intro s; simp
  | succ n ih =>
    intro s
    rw [List.range'_succ]
    refine List.chain'_cons'.2 ⟨?_, ih (s + 1)⟩
    intro b hb
    cases n with
    | zero => simp at hb
    | succ m =>
      rw [List.range'_succ] at hb
      simp only [List.head?_cons, Option.mem_def, Option.some.injEq] at hb
      omega

/-- Claim C8: the concatenation manifest lists exactly the clip identifiers
`1..N`, in strictly increasing order (hence matching input row order), with no
duplicates and no gaps. -/
theorem manifest_ids_contiguous (N : ℕ) :
    (concat_ids N).toFinset = Finset.Icc 1 N ∧
      List.Chain' (· < ·) (concat_ids N) ∧ (concat_ids N).length = N := by
  refine ⟨?_, chain_lt_range N 1, by simp [concat_ids]⟩
  ext i
  simp only [concat_ids, List.mem_toFinset, List.mem_range'_1, Finset.mem_Icc]
  omega

/-! Claim C9: rejection of malformed input tables. -/

/-- Claim C9: a table whose headers miss any required column is rejected with
a diagnostic carrying the headers actually found, and a table with zero data
rows is rejected; in both cases the pipeline exits with an error before any
per-card render instruction is built. -/
theorem input_validation_rejects :
    (∀ (fieldnames : List (List Char)) (rows : List Row) (r : List Char),
        r ∈ requiredHeaders → r ∉ fieldnames →
        run_pipeline fieldnames rows = Except.error (RunError.badHeaders fieldnames)) ∧
      (∀ fieldnames : List (List Char),
        (run_pipeline fieldnames []).toOption = Option.none) := by
  constructor
  · intro fn rows r hr hnf
    have hcont : fn.contains r = false := by
      rw [Bool.eq_false_iff]
      intro h
      exact hnf (List.mem_of_elem_eq_true h)
    have hall : (requiredHeaders.all fun x => fn.contains x) = false := by
      rw [Bool.eq_false_iff]
      intro h
      rw [List.all_eq_true] at h
      have hx := h r hr
      rw [hcont] at hx
      exact Bool.false_ne_true hx
    have hcond : (fn.isEmpty || !(requiredHeaders.all fun x => fn.contains x)) = true := by
      rw [hall]
      simp
    unfold run_pipeline validate_input
    rw [if_pos hcond]
    rfl
  · intro fn
    unfold run_pipeline validate_input
    by_cases h : (fn.isEmpty || !(requiredHeaders.all fun r => fn.contains r)) = true
    · rw [if_pos h]
      rfl
    · rw [if_neg h]
      rfl

theorem input_validation_rejects_witness :
    toL ("reading") ∈ requiredHeaders ∧
      toL ("reading") ∉ ([toL ("word")] : List (List Char)) ∧
      run_pipeline ([toL ("word")]) ([] : List Row) =
        Except.error (RunError.badHeaders ([toL ("word")])) ∧
      (run_pipeline requiredHeaders ([] : List Row)).toOption = Option.none :=
  ⟨by decide, by decide,
    input_validation_rejects.1 ([toL ("word")]) ([] : List Row) (toL ("reading"))
      (by decide) (by decide),
    input_validation_rejects.2 requiredHeaders⟩

/-! Claim C10: empty target-example field. -/

/-- Claim C10 (amended): a row with empty `example_en` is processed without
any failure — the layer's text is the empty wrapped text — but the draw
operation for the layer is still emitted (with empty text), as the fourth
operation of the filter graph. -/
theorem empty_en_empty_text_still_emitted (w r j : List Char) :
    ((make_clip_ops w r j ([] : List Char)).map fun op => op.layer) =
        [Layer.word, Layer.reading, Layer.jp, Layer.en] ∧
      ((make_clip_ops w r j ([] : List Char)).filter fun op => op.layer == Layer.en).map
          (fun op => op.textContent) = [([] : List Char)] :=
  ⟨rfl, rfl⟩

/-- Claim C10 counterexample: with an empty `example_en` field the filter
graph still contains a draw operation for the target-example layer (with
empty text), so "no draw operation is emitted for that layer" fails. -/
theorem empty_en_layer_emitted_cex :
    ((make_clip_ops (toL ("猫")) (toL ("ねこ")) (toL ("猫が好きです。"))
          ([] : List Char)).map fun op => op.layer) =
        [Layer.word, Layer.reading, Layer.jp, Layer.en] ∧
      ((make_clip_ops (toL ("猫")) (toL ("ねこ")) (toL ("猫が好きです。"))
          ([] : List Char)).filter fun op => op.layer == Layer.en).map
          (fun op => op.textContent) = [([] : List Char)] := by
  decide
